import Mathlib

/-!
Shallow embedding of the arbitrage-detection core of `src/bot.py`.

The detector `ArbitrageBot.get_arbitrage_opportunities` receives per-exchange
bid/ask quotes for one symbol (built as a Python dict `prices`, which iterates
in insertion order), picks the exchange with the lowest ask and the exchange
with the highest bid via Python `min`/`max` with a key function (both keep the
first extremal element encountered), and emits a single opportunity when the
spread is positive and the implied percentage exceeds the hard-coded 0.1
threshold.  The scanner `ArbitrageBot.scan_multiple_pairs` runs the detector
over a list of symbols, swallowing per-symbol failures, then sorts all
collected opportunities descending by `profit_percent` (the Python sort is
stable, with `reverse=True`) and keeps the first 5.

Prices are modelled as exact rationals; the per-symbol quote dict is modelled
as an association list in insertion order; the network fetch of one symbol
quote dict is modelled as an explicit function argument that can fail
(`Except Unit`), mirroring the `try`/`except` around each symbol in
`scan_multiple_pairs`.
-/

/-- One exchange quote snapshot, the value stored in the Python dict
`prices[name] = ...` with keys bid, ask, last (bot.py lines 44-48).  `last`
is kept but never read by the detector. -/
structure Quote where
  bid : ℚ
  ask : ℚ
  last : Option ℚ
deriving DecidableEq, Repr

/-- The dictionary mapping exchange name to its quote, in insertion order. -/
abbrev QuoteSet := List (String × Quote)

/-- The opportunity record built at bot.py lines 65-72. -/
structure Opportunity where
  buy_at : String
  sell_at : String
  buy_price : ℚ
  sell_price : ℚ
  profit_percent : ℚ
  symbol : String
deriving DecidableEq, Repr

/-- Python `min(keys, key=f)` over a list: folds left keeping the current
minimum and replacing it only on a strictly smaller key, hence it returns the
first element attaining the minimum (bot.py line 55). -/
def pymin (f : α → ℚ) : List α → Option α
  | [] => none
  | x :: xs => some (xs.foldl (fun acc y => if f y < f acc then y else acc) x)

/-- Python `max(keys, key=f)` over a list: folds left keeping the current
maximum and replacing it only on a strictly larger key, hence it returns the
first element attaining the maximum (bot.py line 56). -/
def pymax (f : α → ℚ) : List α → Option α
  | [] => none
  | x :: xs => some (xs.foldl (fun acc y => if f acc < f y then y else acc) x)

/-- The pure core of `ArbitrageBot.get_arbitrage_opportunities` (bot.py lines
54-79), given the already-fetched `prices` dict: if at least two exchanges
responded, take the lowest-ask and highest-bid exchanges, and when
`lowest_ask > 0 and highest_bid > lowest_ask` and the spread percentage
exceeds 0.1, emit the single opportunity; otherwise return the empty list. -/
def get_arbitrage_opportunities (symbol : String) (prices : QuoteSet) :
    List Opportunity :=
  if 2 ≤ prices.length then
    match pymin (fun p => p.2.ask) prices, pymax (fun p => p.2.bid) prices with
    | some lowest_ask_exchange, some highest_bid_exchange =>
      let lowest_ask := lowest_ask_exchange.2.ask
      let highest_bid := highest_bid_exchange.2.bid
      if 0 < lowest_ask ∧ lowest_ask < highest_bid then
        let arbitrage_percent := (highest_bid - lowest_ask) / lowest_ask * 100
        if (0.1 : ℚ) < arbitrage_percent then
          [{ buy_at := lowest_ask_exchange.1,
             sell_at := highest_bid_exchange.1,
             buy_price := lowest_ask,
             sell_price := highest_bid,
             profit_percent := arbitrage_percent,
             symbol := symbol }]
        else []
      else []
    | _, _ => []
  else []

/-- Insert an opportunity into a list sorted descending by `profit_percent`,
after all elements with a greater-or-equal percentage (so that, folded from
the left, the sort is stable, like the Python list sort). -/
def insertDesc (o : Opportunity) : List Opportunity → List Opportunity
  | [] => [o]
  | x :: xs =>
    if x.profit_percent < o.profit_percent then o :: x :: xs
    else x :: insertDesc o xs

/-- `all_opportunities.sort(key=..., reverse=True)` keyed on `profit_percent`
(bot.py line 93): a stable descending sort by `profit_percent`. -/
def sortDesc (l : List Opportunity) : List Opportunity :=
  l.foldl (fun acc o => insertDesc o acc) []

/-- The fixed symbol list of `scan_multiple_pairs` (bot.py line 82). -/
def common_pairs : List String :=
  ["BTC/USDT", "ETH/USDT", "ADA/USDT", "DOT/USDT", "LINK/USDT"]

/-- `ArbitrageBot.scan_multiple_pairs` (bot.py lines 81-94) over an explicit
symbol list and an explicit per-symbol quote fetcher.  A fetch that raises for
one symbol is caught by the per-symbol `try`/`except` and contributes nothing;
afterwards the accumulated opportunities are sorted descending by
`profit_percent` and truncated to the first 5. -/
def scan_multiple_pairs (fetch : String → Except Unit QuoteSet)
    (pairs : List String) : List Opportunity :=
  let all_opportunities := pairs.foldl
    (fun acc pair =>
      match fetch pair with
      | Except.ok prices => acc ++ get_arbitrage_opportunities pair prices
      | Except.error _ => acc)
    []
  (sortDesc all_opportunities).take 5

/-- The worked example of the specification: binance bid 50000 / ask 50010,
kucoin bid 50200 / ask 50220. -/
def exampleQuotes : QuoteSet :=
  [("binance", ⟨50000, 50010, none⟩), ("kucoin", ⟨50200, 50220, none⟩)]

/-- The no-opportunity example of the specification: the maximum bid 100.05
does not exceed the minimum ask 100.9. -/
def flatQuotes : QuoteSet :=
  [("A", ⟨100, 101, none⟩), ("B", ⟨100.05, 100.9, none⟩)]

/-- A pathological quote set in which one exchange (okx) reports bid 110
above its own ask 100, making it both the lowest-ask and highest-bid venue. -/
def crossedQuotes : QuoteSet :=
  [("okx", ⟨110, 100, none⟩), ("kucoin", ⟨50, 200, none⟩)]

/-- A quote set with ties: binance and okx share the minimum ask 50, kucoin
and okx share the maximum bid 100. -/
def tieQuotes : QuoteSet :=
  [("binance", ⟨40, 50, none⟩), ("kucoin", ⟨100, 70, none⟩),
   ("okx", ⟨100, 50, none⟩)]

/-- The opportunity the detector emits on `tieQuotes`: both ties are resolved
towards the exchange listed first. -/
def tieOpp : Opportunity :=
  { buy_at := "binance", sell_at := "kucoin", buy_price := 50,
    sell_price := 100, profit_percent := 100, symbol := "BTC/USDT" }

/-- A concrete fetcher whose fetch of ETH/USDT raises while every other
symbol returns the example quotes. -/
def failFetch : String → Except Unit QuoteSet :=
  fun s => if s = "ETH/USDT" then Except.error () else Except.ok exampleQuotes

/-! ### Facts about the Python `min`/`max` folds -/

/-- The running minimum of the fold is one of the initial value and the
scanned elements. -/
theorem foldl_min_mem (f : α → ℚ) (l : List α) (a : α) :
    l.foldl (fun acc y => if f y < f acc then y else acc) a ∈ a :: l := by
  induction l generalizing a with
  | nil => simp
  | cons b t ih =>
    simp only [List.foldl_cons]
    have h := ih (if f b < f a then b else a)
    rcases List.mem_cons.1 h with h1 | h1
    · rw [h1]
      by_cases hc : f b < f a
      · rw [if_pos hc]; simp
      · rw [if_neg hc]; simp
    · simp [h1]

/-- The fold computes a value whose key is minimal among the initial value
and the scanned elements. -/
theorem foldl_min_le (f : α → ℚ) (l : List α) (a : α) :
    ∀ y ∈ a :: l,
      f (l.foldl (fun acc y => if f y < f acc then y else acc) a) ≤ f y := by
  induction l generalizing a with
  | nil => intro y hy; simp at hy; simp [hy]
  | cons b t ih =>
    intro y hy
    simp only [List.foldl_cons]
    have hsa : f (if f b < f a then b else a) ≤ f a := by
      by_cases hc : f b < f a
      · rw [if_pos hc]; exact le_of_lt hc
      · rw [if_neg hc]
    have hsb : f (if f b < f a then b else a) ≤ f b := by
      by_cases hc : f b < f a
      · rw [if_pos hc]
      · rw [if_neg hc]; exact not_lt.1 hc
    have hs := ih (if f b < f a then b else a) (if f b < f a then b else a)
      (List.mem_cons_self _ _)
    rcases List.mem_cons.1 hy with h1 | h1
    · subst h1; exact le_trans hs hsa
    · rcases List.mem_cons.1 h1 with h2 | h2
      · subst h2; exact le_trans hs hsb
      · exact ih _ y (List.mem_cons_of_mem _ h2)

/-- If no scanned element strictly beats the initial value, the minimum fold
returns the initial value (so the first of several tied minima wins). -/
theorem foldl_min_stay (f : α → ℚ) (l : List α) (a : α)
    (h : ∀ q ∈ l, ¬ f q < f a) :
    l.foldl (fun acc y => if f y < f acc then y else acc) a = a := by
  induction l with
  | nil => rfl
  | cons b t ih =>
    simp only [List.foldl_cons]
    rw [if_neg (h b (by simp))]
    exact ih fun q hq => h q (by simp [hq])

/-- The running maximum of the fold is one of the initial value and the
scanned elements. -/
theorem foldl_max_mem (f : α → ℚ) (l : List α) (a : α) :
    l.foldl (fun acc y => if f acc < f y then y else acc) a ∈ a :: l := by
  induction l generalizing a with
  | nil => simp
  | cons b t ih =>
    simp only [List.foldl_cons]
    have h := ih (if f a < f b then b else a)
    rcases List.mem_cons.1 h with h1 | h1
    · rw [h1]
      by_cases hc : f a < f b
      · rw [if_pos hc]; simp
      · rw [if_neg hc]; simp
    · simp [h1]

/-- The fold computes a value whose key is maximal among the initial value
and the scanned elements. -/
theorem foldl_max_ge (f : α → ℚ) (l : List α) (a : α) :
    ∀ y ∈ a :: l,
      f y ≤ f (l.foldl (fun acc y => if f acc < f y then y else acc) a) := by
  induction l generalizing a with
  | nil => intro y hy; simp at hy; simp [hy]
  | cons b t ih =>
    intro y hy
    simp only [List.foldl_cons]
    have hsa : f a ≤ f (if f a < f b then b else a) := by
      by_cases hc : f a < f b
      · rw [if_pos hc]; exact le_of_lt hc
      · rw [if_neg hc]
    have hsb : f b ≤ f (if f a < f b then b else a) := by
      by_cases hc : f a < f b
      · rw [if_pos hc]
      · rw [if_neg hc]; exact not_lt.1 hc
    have hs := ih (if f a < f b then b else a) (if f a < f b then b else a)
      (List.mem_cons_self _ _)
    rcases List.mem_cons.1 hy with h1 | h1
    · subst h1; exact le_trans hsa hs
    · rcases List.mem_cons.1 h1 with h2 | h2
      · subst h2; exact le_trans hsb hs
      · exact ih _ y (List.mem_cons_of_mem _ h2)

/-- If no scanned element strictly beats the initial value, the maximum fold
returns the initial value (so the first of several tied maxima wins). -/
theorem foldl_max_stay (f : α → ℚ) (l : List α) (a : α)
    (h : ∀ q ∈ l, ¬ f a < f q) :
    l.foldl (fun acc y => if f acc < f y then y else acc) a = a := by
  induction l with
  | nil => rfl
  | cons b t ih =>
    simp only [List.foldl_cons]
    rw [if_neg (h b (by simp))]
    exact ih fun q hq => h q (by simp [hq])

/-- A successful `pymin` returns an element of the list. -/
theorem pymin_mem (f : α → ℚ) (l : List α) (m : α)
    (h : pymin f l = some m) : m ∈ l := by
  cases l with
  | nil => simp [pymin] at h
  | cons x xs =>
    simp only [pymin, Option.some.injEq] at h
    have := foldl_min_mem f xs x
    rw [h] at this
    exact this

/-- A successful `pymin` returns an element with the least key. -/
theorem pymin_le (f : α → ℚ) (l : List α) (m : α)
    (h : pymin f l = some m) : ∀ y ∈ l, f m ≤ f y := by
  cases l with
  | nil => simp [pymin] at h
  | cons x xs =>
    simp only [pymin, Option.some.injEq] at h
    intro y hy
    have := foldl_min_le f xs x y hy
    rw [h] at this
    exact this

/-- A successful `pymax` returns an element of the list. -/
theorem pymax_mem (f : α → ℚ) (l : List α) (m : α)
    (h : pymax f l = some m) : m ∈ l := by
  cases l with
  | nil => simp [pymax] at h
  | cons x xs =>
    simp only [pymax, Option.some.injEq] at h
    have := foldl_max_mem f xs x
    rw [h] at this
    exact this

/-- A successful `pymax` returns an element with the greatest key. -/
theorem pymax_ge (f : α → ℚ) (l : List α) (m : α)
    (h : pymax f l = some m) : ∀ y ∈ l, f y ≤ f m := by
  cases l with
  | nil => simp [pymax] at h
  | cons x xs =>
    simp only [pymax, Option.some.injEq] at h
    intro y hy
    have := foldl_max_ge f xs x y hy
    rw [h] at this
    exact this

/-- `pymin` returns the first element attaining the minimal key: an element
strictly below everything before it and weakly below everything after it is
selected. -/
theorem pymin_first (f : α → ℚ) (pre suf : List α) (p : α)
    (hpre : ∀ q ∈ pre, f p < f q) (hsuf : ∀ q ∈ suf, f p ≤ f q) :
    pymin f (pre ++ p :: suf) = some p := by
  cases pre with
  | nil =>
    simp only [List.nil_append, pymin, Option.some.injEq]
    exact foldl_min_stay f suf p fun q hq => not_lt.2 (hsuf q hq)
  | cons x pre1 =>
    simp only [List.cons_append, pymin, Option.some.injEq]
    rw [List.foldl_append]
    have hm := foldl_min_mem f pre1 x
    have hlt :
        f p < f (pre1.foldl (fun acc y => if f y < f acc then y else acc) x) := by
      rcases List.mem_cons.1 hm with h1 | h1
      · rw [h1]; exact hpre x (by simp)
      · exact hpre _ (by simp [h1])
    simp only [List.foldl_cons]
    rw [if_pos hlt]
    exact foldl_min_stay f suf p fun q hq => not_lt.2 (hsuf q hq)

/-- `pymax` returns the first element attaining the maximal key: an element
strictly above everything before it and weakly above everything after it is
selected. -/
theorem pymax_first (f : α → ℚ) (pre suf : List α) (p : α)
    (hpre : ∀ q ∈ pre, f q < f p) (hsuf : ∀ q ∈ suf, f q ≤ f p) :
    pymax f (pre ++ p :: suf) = some p := by
  cases pre with
  | nil =>
    simp only [List.nil_append, pymax, Option.some.injEq]
    exact foldl_max_stay f suf p fun q hq => not_lt.2 (hsuf q hq)
  | cons x pre1 =>
    simp only [List.cons_append, pymax, Option.some.injEq]
    rw [List.foldl_append]
    have hm := foldl_max_mem f pre1 x
    have hlt :
        f (pre1.foldl (fun acc y => if f acc < f y then y else acc) x) < f p := by
      rcases List.mem_cons.1 hm with h1 | h1
      · rw [h1]; exact hpre x (by simp)
      · exact hpre _ (by simp [h1])
    simp only [List.foldl_cons]
    rw [if_pos hlt]
    exact foldl_max_stay f suf p fun q hq => not_lt.2 (hsuf q hq)

/-! ### Facts about the descending sort of the scanner -/

/-- Membership in an `insertDesc` insertion. -/
theorem mem_insertDesc (o y : Opportunity) (l : List Opportunity) :
    y ∈ insertDesc o l ↔ y = o ∨ y ∈ l := by
  induction l with
  | nil => simp [insertDesc]
  | cons x xs ih =>
    simp only [insertDesc]
    by_cases hc : x.profit_percent < o.profit_percent
    · rw [if_pos hc]; simp
    · rw [if_neg hc]; simp [ih]; tauto

/-- Inserting into a list sorted descending by `profit_percent` keeps it
sorted. -/
theorem pairwise_insertDesc (o : Opportunity) (l : List Opportunity)
    (h : l.Pairwise (fun a b => b.profit_percent ≤ a.profit_percent)) :
    (insertDesc o l).Pairwise
      (fun a b => b.profit_percent ≤ a.profit_percent) := by
  induction l with
  | nil => simp [insertDesc]
  | cons x xs ih =>
    simp only [insertDesc]
    rcases List.pairwise_cons.1 h with ⟨hx, hxs⟩
    by_cases hc : x.profit_percent < o.profit_percent
    · rw [if_pos hc]
      refine List.pairwise_cons.2 ⟨?_, h⟩
      intro y hy
      rcases List.mem_cons.1 hy with h1 | h1
      · subst h1; exact le_of_lt hc
      · exact le_trans (hx y h1) (le_of_lt hc)
    · rw [if_neg hc]
      refine List.pairwise_cons.2 ⟨?_, ih hxs⟩
      intro y hy
      rcases (mem_insertDesc o y xs).1 hy with h1 | h1
      · subst h1; exact not_lt.1 hc
      · exact hx y h1

/-- Folding insertions over any sorted accumulator yields a sorted list. -/
theorem pairwise_sortDesc_fold (l acc : List Opportunity)
    (h : acc.Pairwise (fun a b => b.profit_percent ≤ a.profit_percent)) :
    (l.foldl (fun acc o => insertDesc o acc) acc).Pairwise
      (fun a b => b.profit_percent ≤ a.profit_percent) := by
  induction l generalizing acc with
  | nil => exact h
  | cons x xs ih => exact ih _ (pairwise_insertDesc x acc h)

/-- `sortDesc` sorts descending by `profit_percent`. -/
theorem pairwise_sortDesc (l : List Opportunity) :
    (sortDesc l).Pairwise (fun a b => b.profit_percent ≤ a.profit_percent) :=
  pairwise_sortDesc_fold l [] (by simp)

/-! ### The claims -/

/-- C1: for every quote set with at least 2 entries, all of whose bids and
asks are positive, in which the maximum bid exceeds the minimum ask by more
than the 0.1 percent threshold, `get_arbitrage_opportunities` returns exactly
one opportunity, whose `profit_percent` is `(max_bid - min_ask) / min_ask *
100`, whose `buy_price` is the minimum ask, and whose `sell_price` is the
maximum bid; the buy and sell venues are the exchanges selected by the
`min`/`max` scans. -/
theorem detect_profitable_spread (sym : String) (prices : QuoteSet)
    (a b pa pb : String × Quote)
    (hlen : 2 ≤ prices.length)
    (hpos : ∀ p ∈ prices, 0 < p.2.bid ∧ 0 < p.2.ask)
    (ha : a ∈ prices) (hamin : ∀ q ∈ prices, a.2.ask ≤ q.2.ask)
    (hb : b ∈ prices) (hbmax : ∀ q ∈ prices, q.2.bid ≤ b.2.bid)
    (hpa : pymin (fun p => p.2.ask) prices = some pa)
    (hpb : pymax (fun p => p.2.bid) prices = some pb)
    (hspread : a.2.ask < b.2.bid)
    (hpct : (0.1 : ℚ) < (b.2.bid - a.2.ask) / a.2.ask * 100) :
    get_arbitrage_opportunities sym prices =
      [{ buy_at := pa.1, sell_at := pb.1, buy_price := a.2.ask,
         sell_price := b.2.bid,
         profit_percent := (b.2.bid - a.2.ask) / a.2.ask * 100,
         symbol := sym }] := by
  have epa : pa.2.ask = a.2.ask :=
    le_antisymm (pymin_le _ prices pa hpa a ha)
      (hamin pa (pymin_mem _ prices pa hpa))
  have epb : pb.2.bid = b.2.bid :=
    le_antisymm (hbmax pb (pymax_mem _ prices pb hpb))
      (pymax_ge _ prices pb hpb b hb)
  unfold get_arbitrage_opportunities
  rw [if_pos hlen, hpa, hpb]
  simp only
  rw [epa, epb]
  rw [if_pos ⟨(hpos a ha).2, hspread⟩, if_pos hpct]

/-- C1 witness: on the spec example (binance bid 50000 / ask 50010, kucoin
bid 50200 / ask 50220) the detector buys at binance for 50010, sells at
kucoin for 50200, and the profit percentage lies strictly between 0.379 and
0.381, hence is approximately 0.380. -/
theorem detect_profitable_spread_example :
    (50010 : ℚ) < 50200 ∧
    (0.1 : ℚ) < ((50200 : ℚ) - 50010) / 50010 * 100 ∧
    get_arbitrage_opportunities "BTC/USDT" exampleQuotes =
      [{ buy_at := "binance", sell_at := "kucoin", buy_price := 50010,
         sell_price := 50200,
         profit_percent := ((50200 : ℚ) - 50010) / 50010 * 100,
         symbol := "BTC/USDT" }] ∧
    (0.379 : ℚ) < ((50200 : ℚ) - 50010) / 50010 * 100 ∧
    ((50200 : ℚ) - 50010) / 50010 * 100 < (0.381 : ℚ) :=
  ⟨by norm_num, by norm_num,
   detect_profitable_spread "BTC/USDT" exampleQuotes
     ("binance", ⟨50000, 50010, none⟩) ("kucoin", ⟨50200, 50220, none⟩)
     ("binance", ⟨50000, 50010, none⟩) ("kucoin", ⟨50200, 50220, none⟩)
     (by norm_num [exampleQuotes]) (by norm_num [exampleQuotes])
     (by norm_num [exampleQuotes]) (by norm_num [exampleQuotes])
     (by norm_num [exampleQuotes]) (by norm_num [exampleQuotes])
     (by norm_num [pymin, exampleQuotes]) (by norm_num [pymax, exampleQuotes])
     (by norm_num) (by norm_num),
   by norm_num, by norm_num⟩

/-- C2: every opportunity emitted by `get_arbitrage_opportunities` satisfies
`sell_price > buy_price > 0`. -/
theorem detect_price_invariant (sym : String) (prices : QuoteSet)
    (o : Opportunity) (hmem : o ∈ get_arbitrage_opportunities sym prices) :
    o.buy_price < o.sell_price ∧ 0 < o.buy_price := by
  unfold get_arbitrage_opportunities at hmem
  split at hmem
  · split at hmem
    · next la hb =>
      simp only at hmem
      split at hmem
      · next hg =>
        split at hmem
        · next hp =>
          simp only [List.mem_singleton] at hmem
          subst hmem
          exact ⟨hg.2, hg.1⟩
        · simp at hmem
      · simp at hmem
    · simp at hmem
  · simp at hmem

/-- C2 witness: the opportunity emitted on the spec example has
`50010 < 50200` and `0 < 50010`. -/
theorem detect_price_invariant_example :
    ({ buy_at := "binance", sell_at := "kucoin", buy_price := 50010,
       sell_price := 50200, profit_percent := 1900 / 5001,
       symbol := "BTC/USDT" } : Opportunity) ∈
      get_arbitrage_opportunities "BTC/USDT" exampleQuotes ∧
    ((50010 : ℚ) < 50200 ∧ (0 : ℚ) < 50010) :=
  ⟨by norm_num [get_arbitrage_opportunities, pymin, pymax, exampleQuotes],
   detect_price_invariant "BTC/USDT" exampleQuotes
     { buy_at := "binance", sell_at := "kucoin", buy_price := 50010,
       sell_price := 50200, profit_percent := 1900 / 5001,
       symbol := "BTC/USDT" }
     (by norm_num [get_arbitrage_opportunities, pymin, pymax, exampleQuotes])⟩

/-- C3: when the maximum bid does not exceed the minimum ask (every bid is at
most every ask), `get_arbitrage_opportunities` returns the empty list; the
function is total, so this is a normal empty result and not an error. -/
theorem detect_no_spread_empty (sym : String) (prices : QuoteSet)
    (hle : ∀ p ∈ prices, ∀ q ∈ prices, p.2.bid ≤ q.2.ask) :
    get_arbitrage_opportunities sym prices = [] := by
  unfold get_arbitrage_opportunities
  by_cases hlen : 2 ≤ prices.length
  · rw [if_pos hlen]
    cases hpa : pymin (fun p => p.2.ask) prices with
    | none => cases pymax (fun p => p.2.bid) prices <;> rfl
    | some pa =>
      cases hpb : pymax (fun p => p.2.bid) prices with
      | none => rfl
      | some pb =>
        simp only
        have hba : pb.2.bid ≤ pa.2.ask :=
          hle pb (pymax_mem _ prices pb hpb) pa (pymin_mem _ prices pa hpa)
        rw [if_neg]
        intro hcontra
        exact absurd hcontra.2 (not_lt.2 hba)
  · rw [if_neg hlen]

/-- C3 witness: on the spec example A bid 100 / ask 101, B bid 100.05 /
ask 100.9, every bid is at most every ask and the detector returns no
opportunity. -/
theorem detect_no_spread_empty_example :
    (flatQuotes.all fun p => flatQuotes.all fun q =>
        decide (p.2.bid ≤ q.2.ask)) = true ∧
    get_arbitrage_opportunities "BTC/USDT" flatQuotes = [] :=
  ⟨by norm_num [flatQuotes],
   detect_no_spread_empty "BTC/USDT" flatQuotes (by norm_num [flatQuotes])⟩

/-- C4: when fewer than 2 exchanges supplied quotes,
`get_arbitrage_opportunities` returns the empty list; the function is total,
so this is a normal empty result and not a raised error. -/
theorem detect_insufficient_data (sym : String) (prices : QuoteSet)
    (h : prices.length < 2) :
    get_arbitrage_opportunities sym prices = [] := by
  unfold get_arbitrage_opportunities
  rw [if_neg (not_le.2 h)]

/-- C4 witness: a single-exchange quote set has length below 2 and yields no
opportunity. -/
theorem detect_insufficient_data_example :
    ([("binance", (⟨50000, 50010, none⟩ : Quote))] : QuoteSet).length < 2 ∧
    get_arbitrage_opportunities "BTC/USDT"
      [("binance", ⟨50000, 50010, none⟩)] = [] :=
  ⟨by decide, detect_insufficient_data "BTC/USDT" _ (by decide)⟩

/-- C5: every opportunity emitted by `get_arbitrage_opportunities` has
`profit_percent` strictly above the 0.1 threshold (the hard-coded value of
the configurable default `min_profit_percent = 0.1`); a spread whose
percentage is at most 0.1 is therefore never emitted. -/
theorem detect_threshold_gate (sym : String) (prices : QuoteSet)
    (o : Opportunity) (hmem : o ∈ get_arbitrage_opportunities sym prices) :
    (0.1 : ℚ) < o.profit_percent := by
  unfold get_arbitrage_opportunities at hmem
  split at hmem
  · split at hmem
    · next la hb =>
      simp only at hmem
      split at hmem
      · next hg =>
        split at hmem
        · next hp =>
          simp only [List.mem_singleton] at hmem
          subst hmem
          exact hp
        · simp at hmem
      · simp at hmem
    · simp at hmem
  · simp at hmem

/-- C5 witness: the opportunity emitted on the spec example has profit
percentage 1900/5001, which exceeds 0.1. -/
theorem detect_threshold_gate_example :
    ({ buy_at := "binance", sell_at := "kucoin", buy_price := 50010,
       sell_price := 50200, profit_percent := 1900 / 5001,
       symbol := "BTC/USDT" } : Opportunity) ∈
      get_arbitrage_opportunities "BTC/USDT" exampleQuotes ∧
    (0.1 : ℚ) < (1900 / 5001 : ℚ) :=
  ⟨by norm_num [get_arbitrage_opportunities, pymin, pymax, exampleQuotes],
   detect_threshold_gate "BTC/USDT" exampleQuotes
     { buy_at := "binance", sell_at := "kucoin", buy_price := 50010,
       sell_price := 50200, profit_percent := 1900 / 5001,
       symbol := "BTC/USDT" }
     (by norm_num [get_arbitrage_opportunities, pymin, pymax, exampleQuotes])⟩

/-- C6: for every fetcher and symbol list, the list returned by
`scan_multiple_pairs` is sorted descending by `profit_percent` and has at
most 5 elements (the hard-coded `max_results`). -/
theorem scan_ranked_top5 (fetch : String → Except Unit QuoteSet)
    (pairs : List String) :
    (scan_multiple_pairs fetch pairs).Pairwise
      (fun a b => b.profit_percent ≤ a.profit_percent) ∧
    (scan_multiple_pairs fetch pairs).length ≤ 5 := by
  constructor
  · exact List.Pairwise.sublist (List.take_sublist 5 _) (pairwise_sortDesc _)
  · simp only [scan_multiple_pairs]
    exact List.length_take_le 5 _

/-- C7: if the fetch of one symbol fails (raises), `scan_multiple_pairs`
still processes all symbols before and after it and returns exactly the
opportunities of the remaining symbols: the scan result equals the scan of
the list with the failing symbol removed. -/
theorem scan_failure_isolation (fetch : String → Except Unit QuoteSet)
    (pre post : List String) (s : String)
    (hfail : fetch s = Except.error ()) :
    scan_multiple_pairs fetch (pre ++ s :: post) =
      scan_multiple_pairs fetch (pre ++ post) := by
  unfold scan_multiple_pairs
  simp only [List.foldl_append, List.foldl_cons, hfail]

/-- C7 witness: with a fetcher that raises exactly on ETH/USDT, scanning
[BTC/USDT, ETH/USDT, ADA/USDT] returns the same result as scanning
[BTC/USDT, ADA/USDT]. -/
theorem scan_failure_isolation_example :
    failFetch "ETH/USDT" = Except.error () ∧
    scan_multiple_pairs failFetch ["BTC/USDT", "ETH/USDT", "ADA/USDT"] =
      scan_multiple_pairs failFetch ["BTC/USDT", "ADA/USDT"] :=
  ⟨by simp [failFetch],
   scan_failure_isolation failFetch ["BTC/USDT"] ["ADA/USDT"] "ETH/USDT"
     (by simp [failFetch])⟩

/-- C8 counterexample: the return value for total source unavailability (the
empty quote set) is the very same plain empty list as for a quote set with no
profitable spread, so no distinguishable status is surfaced. -/
theorem detect_no_data_conflated :
    get_arbitrage_opportunities "BTC/USDT" [] =
      get_arbitrage_opportunities "BTC/USDT" flatQuotes ∧
    get_arbitrage_opportunities "BTC/USDT" [] = [] := by
  constructor <;>
    norm_num [get_arbitrage_opportunities, pymin, pymax, flatQuotes]

/-- C8 amended: when no exchange supplies any quote,
`get_arbitrage_opportunities` returns the normal empty result, the same value
it returns for an unprofitable spread; the two conditions are not
distinguishable from the return value. -/
theorem detect_no_data_plain_empty (sym : String) :
    get_arbitrage_opportunities sym [] = [] ∧
    get_arbitrage_opportunities sym [] =
      get_arbitrage_opportunities sym flatQuotes := by
  constructor <;>
    norm_num [get_arbitrage_opportunities, pymin, pymax, flatQuotes]

/-- C9: the min-ask/max-bid selection does not exclude the buy and sell
venues coinciding: there is a quote set, containing an exchange whose bid
exceeds its own ask, on which the detector emits an opportunity whose
`buy_at` equals its `sell_at`. -/
theorem detect_same_exchange_possible :
    ∃ (prices : QuoteSet) (o : Opportunity),
      (∃ q ∈ prices, q.2.ask < q.2.bid) ∧
      get_arbitrage_opportunities "BTC/USDT" prices = [o] ∧
      o.buy_at = o.sell_at :=
  ⟨crossedQuotes,
   { buy_at := "okx", sell_at := "okx", buy_price := 100, sell_price := 110,
     profit_percent := 10, symbol := "BTC/USDT" },
   ⟨("okx", ⟨110, 100, none⟩), by norm_num [crossedQuotes], by norm_num⟩,
   by norm_num [get_arbitrage_opportunities, pymin, pymax, crossedQuotes],
   rfl⟩

/-- C10: ties are resolved deterministically towards the exchange that
appears first in the iteration (insertion) order of the quote dict: if an
entry is strictly cheaper than every entry before it and at most as expensive
as every entry after it, it is the buy venue of any emitted opportunity, and
symmetrically for the highest bid and the sell venue. -/
theorem detect_tie_first_in_order (sym : String) (prices : QuoteSet)
    (o : Opportunity) (preA sufA preB sufB : QuoteSet)
    (pa pb : String × Quote)
    (hmem : o ∈ get_arbitrage_opportunities sym prices)
    (hdA : prices = preA ++ pa :: sufA)
    (hpreA : ∀ q ∈ preA, pa.2.ask < q.2.ask)
    (hsufA : ∀ q ∈ sufA, pa.2.ask ≤ q.2.ask)
    (hdB : prices = preB ++ pb :: sufB)
    (hpreB : ∀ q ∈ preB, q.2.bid < pb.2.bid)
    (hsufB : ∀ q ∈ sufB, q.2.bid ≤ pb.2.bid) :
    o.buy_at = pa.1 ∧ o.sell_at = pb.1 := by
  have hpa : pymin (fun p => p.2.ask) prices = some pa := by
    rw [hdA]; exact pymin_first _ preA sufA pa hpreA hsufA
  have hpb : pymax (fun p => p.2.bid) prices = some pb := by
    rw [hdB]; exact pymax_first _ preB sufB pb hpreB hsufB
  unfold get_arbitrage_opportunities at hmem
  split at hmem
  · rw [hpa, hpb] at hmem
    simp only at hmem
    split at hmem
    · split at hmem
      · simp only [List.mem_singleton] at hmem
        subst hmem
        exact ⟨rfl, rfl⟩
      · simp at hmem
    · simp at hmem
  · simp at hmem

/-- C10 witness: on `tieQuotes`, where binance and okx tie for the minimum
ask and kucoin and okx tie for the maximum bid, the emitted opportunity buys
at binance and sells at kucoin, the first tied exchanges in insertion
order. -/
theorem detect_tie_first_in_order_example :
    tieOpp ∈ get_arbitrage_opportunities "BTC/USDT" tieQuotes ∧
    tieOpp.buy_at = "binance" ∧ tieOpp.sell_at = "kucoin" :=
  ⟨by norm_num [get_arbitrage_opportunities, pymin, pymax, tieQuotes, tieOpp],
   (detect_tie_first_in_order "BTC/USDT" tieQuotes tieOpp []
      [("kucoin", ⟨100, 70, none⟩), ("okx", ⟨100, 50, none⟩)]
      [("binance", ⟨40, 50, none⟩)] [("okx", ⟨100, 50, none⟩)]
      ("binance", ⟨40, 50, none⟩) ("kucoin", ⟨100, 70, none⟩)
      (by norm_num [get_arbitrage_opportunities, pymin, pymax, tieQuotes,
        tieOpp])
      rfl (by norm_num) (by norm_num [tieQuotes]) rfl (by norm_num)
      (by norm_num [tieQuotes])).1,
   (detect_tie_first_in_order "BTC/USDT" tieQuotes tieOpp []
      [("kucoin", ⟨100, 70, none⟩), ("okx", ⟨100, 50, none⟩)]
      [("binance", ⟨40, 50, none⟩)] [("okx", ⟨100, 50, none⟩)]
      ("binance", ⟨40, 50, none⟩) ("kucoin", ⟨100, 70, none⟩)
      (by norm_num [get_arbitrage_opportunities, pymin, pymax, tieQuotes,
        tieOpp])
      rfl (by norm_num) (by norm_num [tieQuotes]) rfl (by norm_num)
      (by norm_num [tieQuotes])).2⟩
